import Mathlib

/-!
# dns_connector_factory: asynchronous connection establishment

Shallow embedding of `src/network/communicator/dns_communicator_factory.cpp`.

Every C++ function and every completion handler (lambda) of the source becomes a
pure Lean function that returns

* the list of observable actions it performs, in program order, and
* the asynchronous operation it leaves outstanding, if any (its completion
  handler together with the values that handler captured).

A request is then driven by a script of environment events (completions of the
outstanding operation, expiry of its deadline timer, destruction of the factory,
writes to the `stopping` member); `run` folds `step` over the script and
accumulates the actions in a trace.
-/

namespace network

/-- A resolved endpoint (`boost::asio::ip::tcp::endpoint`): address and port. -/
structure Endpoint where
  address : Nat
  port : Nat
deriving DecidableEq, Repr

/-- Value of a `boost::system::error_code`; `0` is success, so the C++ test
`if (ec)` is `ec ≠ 0`. -/
abbrev error_code := Nat

/-- Value with which Boost.Asio completes an operation that was cancelled
(`boost::asio::error::operation_aborted`, `ECANCELED`). -/
def operation_aborted : error_code := 125

/-- Members of `dns_connector_factory` that the code reaches through `this`. -/
inductive Member where
  | io_service
  | conn_timeout
  | stopping
  | dead
deriving DecidableEq, Repr

/-- The two deadline timers the source creates. -/
inductive Timer where
  | resolve_timer
  | connect_timer
deriving DecidableEq, Repr

/-- The two socket types a `server::connector` is instantiated with. -/
inductive SocketKind where
  | tcp_socket
  | ssl_socket
deriving DecidableEq, Repr

/-- A `server::connector<S>` as built at lines 106-107 and 156-157: the
transport it wraps (identified by the endpoint it is connected to) and the
timeout given to `set_timeout`. -/
structure connector where
  kind : SocketKind
  peer : Endpoint
  timeout : Nat
deriving DecidableEq, Repr

/-- The asynchronous operations of the source. -/
inductive Op where
  | resolve
  | connect
  | range_connect
  | handshake
deriving DecidableEq, Repr

/-- Observable actions, recorded in program order. -/
inductive Action where
  /-- Access to a member of the factory through `this`. -/
  | read (m : Member)
  /-- Call of `error_cb(code)`: the caller's `on_error`. -/
  | error_cb (code : Int)
  /-- Call of `connector_cb(connector)`: the caller's `on_success`. -/
  | connector_cb (c : connector)
  /-- Create a deadline timer, `expires_from_now(ms)` and `async_wait`. -/
  | timer_start (t : Timer) (ms : Nat)
  /-- Call of `cancel()` on a timer. -/
  | timer_cancel (t : Timer)
  /-- Call of `r->async_resolve(q, ...)` with `q(address, to_string(port))`. -/
  | async_resolve (address : String) (port : Nat)
  /-- Call of `socket->async_connect(endpoint, ...)`, line 91. -/
  | socket_async_connect (endpoint : Endpoint)
  /-- Call of `boost::asio::async_connect(stream->lowest_layer(), it, ...)`, line 133. -/
  | async_connect (it : List Endpoint)
  /-- One connection attempt made by the composed `async_connect` operation. -/
  | range_attempt (endpoint : Endpoint)
  /-- Call of `stream->set_verify_mode(verify_none)`. -/
  | set_verify_none
  /-- Call of `stream->async_handshake(client, ...)` on the stream connected to `peer`. -/
  | async_handshake (peer : Endpoint)
  /-- Call of `r->cancel()` by the resolve timer's handler. -/
  | resolver_cancel
  /-- Call of `socket->cancel()` by the connect timer's handler. -/
  | socket_cancel
  /-- Call of `stream->shutdown(sec)` by the connect timer's handler of the ssl overload. -/
  | stream_shutdown
  /-- The completion handler of an operation was invoked with `ec`. -/
  | completed (op : Op) (ec : error_code)
deriving DecidableEq, Repr

/-- State of the factory object. `dead` is the value of the shared flag `*dead`,
`false` after construction (line 12) and `true` after the destructor (line 17).
`resolve_timeout` and `connect_timeout` are constants declared in the header,
which is not part of the sources; they are taken as parameters. -/
structure dns_connector_factory where
  conn_timeout : Nat
  stopping : Bool
  dead : Bool
  resolve_timeout : Nat
  connect_timeout : Nat
deriving DecidableEq, Repr

/-- The outstanding asynchronous operation of a request, with what its
completion handler captured. A resolver iterator is the list of endpoints from
its position on; the end iterator is `[]`. -/
inductive Pending where
  /-- Outstanding `r->async_resolve`; the handler captured `tls`. -/
  | resolve (tls : Bool)
  /-- Outstanding `socket->async_connect(endpoint, ...)`; the handler captured the
  advanced `it`. -/
  | connect (endpoint : Endpoint) (it : List Endpoint)
  /-- Composed `boost::asio::async_connect` over the range `it`, currently
  attempting the head of `it`. -/
  | range_connect (it : List Endpoint)
  /-- Outstanding `stream->async_handshake` on the stream connected to `peer`. -/
  | handshake (peer : Endpoint)
deriving DecidableEq, Repr

/-- What a function or handler of the source does: its actions and the
operation it leaves outstanding. -/
abbrev Outcome := List Action × Option Pending

/-- Function `endpoint_connect(it, socket, connector_cb, error_cb)`, tcp socket overload,
lines 77-91. `||` short-circuits, so `stopping` is read only when `it` is not
the end iterator. -/
def endpoint_connect (f : dns_connector_factory) : List Endpoint → Outcome
  | [] => ([Action.error_cb 3], none)
  | endpoint :: it =>
    if f.stopping then
      ([Action.read Member.stopping, Action.error_cb 3], none)
    else
      ([Action.read Member.stopping,
        Action.read Member.io_service,
        Action.timer_start Timer.connect_timer f.connect_timeout,
        Action.read Member.dead,
        Action.socket_async_connect endpoint],
       some (Pending.connect endpoint it))

/-- Completion handler of `socket->async_connect`, lines 94-109. `endpoint` is
the endpoint the captured socket was asked to connect to, `it` the captured
(advanced) iterator. -/
def connect_handler (f : dns_connector_factory) (endpoint : Endpoint)
    (it : List Endpoint) (ec : error_code) : Outcome :=
  if f.dead then ([], none)
  else if ec ≠ 0 then
    let r := endpoint_connect f it
    (Action.timer_cancel Timer.connect_timer :: r.1, r.2)
  else
    ([Action.timer_cancel Timer.connect_timer,
      Action.read Member.conn_timeout,
      Action.connector_cb ⟨SocketKind.tcp_socket, endpoint, f.conn_timeout⟩],
     none)

/-- Function `endpoint_connect(it, stream, connector_cb, error_cb)`, ssl stream overload,
lines 112-133. -/
def endpoint_connect_ssl (f : dns_connector_factory) : List Endpoint → Outcome
  | [] => ([Action.error_cb 3], none)
  | endpoint :: it =>
    if f.stopping then
      ([Action.read Member.stopping, Action.error_cb 3], none)
    else
      ([Action.read Member.stopping,
        Action.set_verify_none,
        Action.read Member.io_service,
        Action.timer_start Timer.connect_timer f.connect_timeout,
        Action.read Member.dead,
        Action.async_connect (endpoint :: it),
        Action.range_attempt endpoint],
       some (Pending.range_connect (endpoint :: it)))

/-- Completion handler of the composed `boost::asio::async_connect`, lines
134-146. `it` is the iterator the operation hands to the handler, `peer` the
endpoint the stream's lowest layer was last asked to connect to. -/
def range_connect_handler (f : dns_connector_factory) (peer : Endpoint)
    (ec : error_code) (it : List Endpoint) : Outcome :=
  if f.dead then ([], none)
  else if ec ≠ 0 then endpoint_connect_ssl f it
  else ([Action.async_handshake peer], some (Pending.handshake peer))

/-- Completion handler of `stream->async_handshake`, lines 148-159. It does not
capture `dead` and does not test it. -/
def handshake_handler (f : dns_connector_factory) (peer : Endpoint)
    (ec : error_code) : Outcome :=
  if ec ≠ 0 then ([Action.timer_cancel Timer.connect_timer], none)
  else
    ([Action.timer_cancel Timer.connect_timer,
      Action.read Member.conn_timeout,
      Action.connector_cb ⟨SocketKind.ssl_socket, peer, f.conn_timeout⟩],
     none)

/-- Completion handler of `r->async_resolve`, lines 47-74. -/
def resolve_handler (f : dns_connector_factory) (tls : Bool) (ec : error_code)
    (iterator : List Endpoint) : Outcome :=
  if f.dead then ([], none)
  else if ec ≠ 0 ∨ iterator = [] then
    ([Action.timer_cancel Timer.resolve_timer, Action.error_cb 3], none)
  else if tls then
    let r := endpoint_connect_ssl f iterator
    (Action.timer_cancel Timer.resolve_timer :: Action.read Member.io_service :: r.1, r.2)
  else
    let r := endpoint_connect f iterator
    (Action.timer_cancel Timer.resolve_timer :: Action.read Member.io_service :: r.1, r.2)

/-- Function `dns_resolver(address, port, tls, connector_cb, error_cb)`, lines 28-45. -/
def dns_resolver (f : dns_connector_factory) (address : String) (port : Nat)
    (tls : Bool) : Outcome :=
  let port := if port = 0 then (if tls then 443 else 80) else port
  ([Action.read Member.io_service,
    Action.read Member.io_service,
    Action.timer_start Timer.resolve_timer f.resolve_timeout,
    Action.read Member.dead,
    Action.async_resolve address port],
   some (Pending.resolve tls))

/-- Function `get_connector(address, port, tls, connector_cb, error_cb)`, lines 20-26. -/
def get_connector (f : dns_connector_factory) (address : String) (port : Nat)
    (tls : Bool) : Outcome :=
  if f.stopping then ([Action.read Member.stopping, Action.error_cb 1], none)
  else
    let r := dns_resolver f address port tls
    (Action.read Member.stopping :: r.1, r.2)

/-- Handler of `resolve_timer->async_wait`, lines 40-43. -/
def resolve_timer_handler (ec : error_code) : List Action :=
  if ec = 0 then [Action.resolver_cancel] else []

/-- Handler of `connect_timer->async_wait` of the tcp overload, lines 86-89. -/
def connect_timer_handler (ec : error_code) : List Action :=
  if ec = 0 then [Action.socket_cancel] else []

/-- Handler of `connect_timer->async_wait` of the ssl overload, lines 124-131. -/
def connect_timer_handler_ssl (ec : error_code) : List Action :=
  if ec = 0 then [Action.stream_shutdown] else []

/-- Code the specification calls `REJECTED`: the literal passed to `error_cb`
at line 23, when a stopping factory rejects a request. The source has no
enumeration of error codes; it passes integer literals. -/
def REJECTED : Int := 1

/-- Code the specification calls `RESOLUTION_FAILED`: the literal passed to
`error_cb` at line 56, when the resolve operation fails or yields no endpoint. -/
def RESOLUTION_FAILED : Int := 3

/-- Code the specification calls `CONNECTION_EXHAUSTED`: the literal passed to
`error_cb` at lines 81 and 117, when a trial is entered with the end iterator
or on a stopping factory. -/
def CONNECTION_EXHAUSTED : Int := 3

/-! ## The environment -/

/-- What the environment can do to a request in flight. -/
inductive Event where
  /-- The destructor of the factory runs: `*dead = true`. -/
  | destroy
  /-- The `stopping` member is written. -/
  | set_stopping (b : Bool)
  /-- The deadline timer guarding the outstanding operation expires. -/
  | timer_expired
  /-- The resolve operation completes with `ec` and the endpoint list `iterator`. -/
  | resolved (ec : error_code) (iterator : List Endpoint)
  /-- One connection attempt completes with `ec`. -/
  | connected (ec : error_code)
  /-- The handshake completes with `ec`. -/
  | handshaken (ec : error_code)
deriving DecidableEq, Repr

/-- A request in flight. `cancelled` records that the timer handler has
cancelled the outstanding operation. -/
structure State where
  factory : dns_connector_factory
  pending : Option Pending
  cancelled : Bool
  trace : List Action
deriving DecidableEq, Repr

/-- The handler of operation `op` is invoked with `ec` and does `r`. -/
def State.deliver (s : State) (op : Op) (ec : error_code) (r : Outcome) : State :=
  { s with pending := r.2, cancelled := false,
           trace := s.trace ++ Action.completed op ec :: r.1 }

/-- One event of the environment.

The behaviour of Boost.Asio is taken from its documentation:
* an operation cancelled through `cancel()` completes with `operation_aborted`
  (and, for a resolve, the end iterator);
* the composed `async_connect(s, begin, handler)` tries the endpoints from
  `begin` one after the other; it calls the handler with success and the
  iterator of the endpoint that accepted, or, once every endpoint failed, with
  the last error and the end iterator.

An event that does not match the outstanding operation has no effect. -/
def step (s : State) : Event → State
  | Event.destroy => { s with factory := { s.factory with dead := true } }
  | Event.set_stopping b => { s with factory := { s.factory with stopping := b } }
  | Event.timer_expired =>
    match s.pending with
    | some (Pending.resolve _) =>
      { s with cancelled := true, trace := s.trace ++ resolve_timer_handler 0 }
    | some (Pending.connect _ _) =>
      { s with cancelled := true, trace := s.trace ++ connect_timer_handler 0 }
    | some (Pending.range_connect _) =>
      { s with trace := s.trace ++ connect_timer_handler_ssl 0 }
    | some (Pending.handshake _) =>
      { s with trace := s.trace ++ connect_timer_handler_ssl 0 }
    | none => s
  | Event.resolved ec iterator =>
    match s.pending with
    | some (Pending.resolve tls) =>
      if s.cancelled then
        s.deliver Op.resolve operation_aborted
          (resolve_handler s.factory tls operation_aborted [])
      else
        s.deliver Op.resolve ec (resolve_handler s.factory tls ec iterator)
    | _ => s
  | Event.connected ec =>
    match s.pending with
    | some (Pending.connect endpoint it) =>
      if s.cancelled then
        s.deliver Op.connect operation_aborted
          (connect_handler s.factory endpoint it operation_aborted)
      else
        s.deliver Op.connect ec (connect_handler s.factory endpoint it ec)
    | some (Pending.range_connect (endpoint :: next :: it)) =>
      if ec = 0 then
        s.deliver Op.range_connect 0
          (range_connect_handler s.factory endpoint 0 (endpoint :: next :: it))
      else
        { s with pending := some (Pending.range_connect (next :: it)),
                 trace := s.trace ++ [Action.range_attempt next] }
    | some (Pending.range_connect [endpoint]) =>
      if ec = 0 then
        s.deliver Op.range_connect 0
          (range_connect_handler s.factory endpoint 0 [endpoint])
      else
        s.deliver Op.range_connect ec
          (range_connect_handler s.factory endpoint ec [])
    | _ => s
  | Event.handshaken ec =>
    match s.pending with
    | some (Pending.handshake peer) =>
      s.deliver Op.handshake ec (handshake_handler s.factory peer ec)
    | _ => s

/-- Run a script of events. -/
def run (s : State) (evs : List Event) : State := evs.foldl step s

/-- The state right after a function of the source returned with outcome `r`. -/
def after (f : dns_connector_factory) (r : Outcome) : State :=
  { factory := f, pending := r.2, cancelled := false, trace := r.1 }

/-- A request: the state right after `get_connector` returned. -/
def request (f : dns_connector_factory) (address : String) (port : Nat)
    (tls : Bool) : State :=
  after f (get_connector f address port tls)

/-- A plain endpoint trial: the state right after `endpoint_connect`
(tcp socket overload) returned. -/
def trial (f : dns_connector_factory) (it : List Endpoint) : State :=
  after f (endpoint_connect f it)

/-! ## Observations on a trace -/

/-- Codes passed to `error_cb`, in order. -/
def errors : List Action → List Int
  | [] => []
  | Action.error_cb c :: tr => c :: errors tr
  | _ :: tr => errors tr

/-- Connectors passed to `connector_cb`, in order. -/
def successes : List Action → List connector
  | [] => []
  | Action.connector_cb c :: tr => c :: successes tr
  | _ :: tr => successes tr

/-- Endpoints on which a connection attempt was started, in order. -/
def attempts : List Action → List Endpoint
  | [] => []
  | Action.socket_async_connect e :: tr => e :: attempts tr
  | Action.range_attempt e :: tr => e :: attempts tr
  | _ :: tr => attempts tr

/-- Queries given to `async_resolve`, in order. -/
def queries : List Action → List (String × Nat)
  | [] => []
  | Action.async_resolve a p :: tr => (a, p) :: queries tr
  | _ :: tr => queries tr

/-- Members of the factory read through `this`, in order. -/
def reads : List Action → List Member
  | [] => []
  | Action.read m :: tr => m :: reads tr
  | _ :: tr => reads tr

/-- Whether an action starts a resolve, timer, connect or handshake operation. -/
def Action.starts_operation : Action → Bool
  | Action.timer_start _ _ => true
  | Action.async_resolve _ _ => true
  | Action.socket_async_connect _ => true
  | Action.async_connect _ => true
  | Action.range_attempt _ => true
  | Action.async_handshake _ => true
  | _ => false

/-- The operations started in a trace. -/
def operations (tr : List Action) : List Action :=
  tr.filter Action.starts_operation

/-- Progress of the attempts of a plain trial, as read off a trace. -/
inductive Phase where
  /-- No attempt is in flight and none has succeeded. -/
  | idle
  /-- One attempt is in flight. -/
  | in_flight
  /-- An attempt has completed with success. -/
  | succeeded
deriving DecidableEq, Repr

/-- Check one action against the discipline of sequential attempts: an attempt
may start only when none is in flight and none has succeeded; a completion
needs an attempt in flight. `none` reports a violation. -/
def Phase.next : Phase → Action → Option Phase
  | Phase.idle, Action.socket_async_connect _ => some Phase.in_flight
  | _, Action.socket_async_connect _ => none
  | Phase.in_flight, Action.completed Op.connect ec =>
    some (if ec = 0 then Phase.succeeded else Phase.idle)
  | _, Action.completed Op.connect _ => none
  | ph, _ => some ph

/-- Check a whole trace, from phase `ph`. -/
def Phase.check : Phase → List Action → Option Phase
  | ph, [] => some ph
  | ph, a :: tr => (ph.next a).bind (fun ph2 => Phase.check ph2 tr)

/-- Endpoints on whose stream a handshake was started, in order. -/
def handshakes : List Action → List Endpoint
  | [] => []
  | Action.async_handshake e :: tr => e :: handshakes tr
  | _ :: tr => handshakes tr

/-- Number of `connected` events in a script. -/
def connect_completions : List Event → Nat
  | [] => 0
  | Event.connected _ :: evs => connect_completions evs + 1
  | _ :: evs => connect_completions evs

/-- Number of times a trace invokes one of the caller's two callbacks. -/
def callbacks (tr : List Action) : Nat :=
  (errors tr).length + (successes tr).length

/-- Number of candidates a plain trial has not consumed yet, counting the one
whose attempt is in flight. -/
def remaining (s : State) : Nat :=
  match s.pending with
  | some (Pending.connect _ it) => it.length + 1
  | _ => 0

/-- Invariant of a plain trial over the candidates `cs`: either nothing is
outstanding, the attempts made so far are an initial segment of `cs` and the
trace ends with no attempt in flight; or one attempt is outstanding, the
attempts made so far followed by the captured iterator are `cs`, and the trace
ends with exactly that attempt in flight. -/
def TrialInv (cs : List Endpoint) (s : State) : Prop :=
  (s.pending = none ∧ attempts s.trace <+: cs
      ∧ ∃ ph, Phase.check Phase.idle s.trace = some ph ∧ ph ≠ Phase.in_flight)
    ∨ (∃ e it, s.pending = some (Pending.connect e it) ∧ attempts s.trace ++ it = cs
      ∧ Phase.check Phase.idle s.trace = some Phase.in_flight)

/-- Script of a request whose resolve yields `cs`, whose attempts fail with the
codes `ecs` one after the other, whose next attempt succeeds and, for a secure
request, whose handshake succeeds; `post` is whatever happens afterwards. -/
def fallback_script (tls : Bool) (cs : List Endpoint) (ecs : List error_code)
    (post : List Event) : List Event :=
  Event.resolved 0 cs
    :: (ecs.map Event.connected
        ++ Event.connected 0 :: ((if tls then [Event.handshaken 0] else []) ++ post))

/-- Socket type of the connector a request produces. -/
def socket_kind (tls : Bool) : SocketKind :=
  if tls then SocketKind.ssl_socket else SocketKind.tcp_socket

/-! ## Sample data -/

/-- A live factory that accepts requests. -/
def sample_factory : dns_connector_factory :=
  { conn_timeout := 30000, stopping := false, dead := false,
    resolve_timeout := 2000, connect_timeout := 1000 }

/-- A factory that is stopping. -/
def stopping_factory : dns_connector_factory :=
  { sample_factory with stopping := true }

/-- First sample endpoint. -/
def ep1 : Endpoint := ⟨1, 443⟩

/-- Second sample endpoint. -/
def ep2 : Endpoint := ⟨2, 443⟩

/-- Third sample endpoint. -/
def ep3 : Endpoint := ⟨3, 443⟩

/-! ## Basic lemmas -/

theorem run_nil (s : State) : run s [] = s := rfl

theorem run_cons (s : State) (e : Event) (evs : List Event) :
    run s (e :: evs) = run (step s e) evs := rfl

theorem run_append (s : State) (evs evs2 : List Event) :
    run s (evs ++ evs2) = run (run s evs) evs2 := by
  simp [run, List.foldl_append]

theorem errors_append (tr tr2 : List Action) :
    errors (tr ++ tr2) = errors tr ++ errors tr2 := by
  induction tr with
  | nil => rfl
  | cons a tr ih => cases a <;> simp [errors, ih]

theorem successes_append (tr tr2 : List Action) :
    successes (tr ++ tr2) = successes tr ++ successes tr2 := by
  induction tr with
  | nil => rfl
  | cons a tr ih => cases a <;> simp [successes, ih]

theorem attempts_append (tr tr2 : List Action) :
    attempts (tr ++ tr2) = attempts tr ++ attempts tr2 := by
  induction tr with
  | nil => rfl
  | cons a tr ih => cases a <;> simp [attempts, ih]

theorem handshakes_append (tr tr2 : List Action) :
    handshakes (tr ++ tr2) = handshakes tr ++ handshakes tr2 := by
  induction tr with
  | nil => rfl
  | cons a tr ih => cases a <;> simp [handshakes, ih]

theorem operations_append (tr tr2 : List Action) :
    operations (tr ++ tr2) = operations tr ++ operations tr2 := by
  simp [operations]

/-- Once nothing is outstanding, no event adds an action or starts anything. -/
theorem step_idle (s : State) (e : Event) (h : s.pending = none) :
    (step s e).pending = none ∧ (step s e).trace = s.trace := by
  cases e <;> simp [step, h]

theorem run_idle (evs : List Event) (s : State) (h : s.pending = none) :
    (run s evs).pending = none ∧ (run s evs).trace = s.trace := by
  induction evs generalizing s with
  | nil => exact ⟨h, rfl⟩
  | cons e evs ih =>
    rw [run_cons]
    have hs := step_idle s e h
    have := ih (step s e) hs.1
    exact ⟨this.1, this.2.trans hs.2⟩

/-! ## Rejection by a stopping factory -/

/-- The whole trace of a request made to a stopping factory. -/
theorem get_connector_rejected_trace (f : dns_connector_factory)
    (address : String) (port : Nat) (tls : Bool) (evs : List Event)
    (hstop : f.stopping = true) :
    (run (request f address port tls) evs).trace
      = [Action.read Member.stopping, Action.error_cb 1] := by
  have hp : (request f address port tls).pending = none := by
    simp [request, after, get_connector, hstop]
  rw [(run_idle evs _ hp).2]
  simp [request, after, get_connector, hstop]

/-- C2: when `stopping` is set at the call of `get_connector`, the call itself
(synchronously) invokes `error_cb` exactly once, with `REJECTED`, leaves no
operation outstanding, and over every later script of events the request never
invokes `connector_cb`, never invokes `error_cb` again and starts no resolve,
timer, connect or handshake operation. -/
theorem get_connector_rejects_when_stopping (f : dns_connector_factory)
    (address : String) (port : Nat) (tls : Bool) (evs : List Event)
    (hstop : f.stopping = true) :
    get_connector f address port tls
        = ([Action.read Member.stopping, Action.error_cb REJECTED], none)
      ∧ errors (run (request f address port tls) evs).trace = [REJECTED]
      ∧ successes (run (request f address port tls) evs).trace = []
      ∧ operations (run (request f address port tls) evs).trace = [] := by
  have hg : get_connector f address port tls
      = ([Action.read Member.stopping, Action.error_cb REJECTED], none) := by
    simp [get_connector, hstop, REJECTED]
  have hp : (request f address port tls).pending = none := by
    simp [request, after, hg]
  have ht : (request f address port tls).trace
      = [Action.read Member.stopping, Action.error_cb REJECTED] := by
    simp [request, after, hg]
  have hr := run_idle evs _ hp
  rw [hr.2, ht]
  exact ⟨hg, rfl, rfl, rfl⟩

theorem get_connector_rejects_when_stopping_witness :
    stopping_factory.stopping = true
      ∧ errors (run (request stopping_factory "example.org" 8443 true)
          [Event.resolved 0 [ep1], Event.connected 0, Event.handshaken 0]).trace
        = [REJECTED] :=
  ⟨rfl, (get_connector_rejects_when_stopping stopping_factory "example.org" 8443 true
      [Event.resolved 0 [ep1], Event.connected 0, Event.handshaken 0] rfl).2.1⟩

/-! ## Port defaulting -/

/-- C7: the one query `dns_resolver` gives to `async_resolve` carries the
address unchanged and the port `80` when `p = 0` and the request is plain, `443`
when `p = 0` and the request is secure, and `p` itself when `p` is not zero,
whatever `secure` is; `8443` stays `8443`. -/
theorem dns_resolver_query_port (f : dns_connector_factory) (address : String)
    (p : Nat) (secure : Bool) :
    queries (dns_resolver f address p secure).1
        = [(address, if p = 0 then (if secure then 443 else 80) else p)]
      ∧ queries (dns_resolver f address 0 false).1 = [(address, 80)]
      ∧ queries (dns_resolver f address 0 true).1 = [(address, 443)]
      ∧ queries (dns_resolver f address (p + 1) secure).1 = [(address, p + 1)]
      ∧ queries (dns_resolver f address 8443 secure).1 = [(address, 8443)] := by
  refine ⟨?_, ?_, ?_, ?_, ?_⟩ <;> simp [dns_resolver, queries]

/-! ## The lifetime flag -/

/-- The completion handlers of the resolve operation and of both connect
operations test the flag first: on a destroyed factory they do nothing at all. -/
theorem dead_handlers_do_nothing (f : dns_connector_factory) (tls : Bool)
    (e : Endpoint) (it : List Endpoint) (ec : error_code) (hdead : f.dead = true) :
    resolve_handler f tls ec it = ([], none)
      ∧ connect_handler f e it ec = ([], none)
      ∧ range_connect_handler f e ec it = ([], none) := by
  simp [resolve_handler, connect_handler, range_connect_handler, hdead]

/-! ## The handshake completion -/

/-- C1: a secure request accepted by a live, non-stopping factory whose resolve
and raw connect succeed and whose handshake fails ends with nothing outstanding
and with neither `error_cb` nor `connector_cb` invoked. -/
theorem handshake_failure_invokes_no_callback :
    get_connector sample_factory "example.org" 443 true
        ≠ ([Action.read Member.stopping, Action.error_cb REJECTED], none)
      ∧ (run (request sample_factory "example.org" 443 true)
          [Event.resolved 0 [ep1], Event.connected 0, Event.handshaken 1]).factory.dead
        = false
      ∧ (run (request sample_factory "example.org" 443 true)
          [Event.resolved 0 [ep1], Event.connected 0, Event.handshaken 1]).pending
        = none
      ∧ errors (run (request sample_factory "example.org" 443 true)
          [Event.resolved 0 [ep1], Event.connected 0, Event.handshaken 1]).trace
        = []
      ∧ successes (run (request sample_factory "example.org" 443 true)
          [Event.resolved 0 [ep1], Event.connected 0, Event.handshaken 1]).trace
        = [] := by
  refine ⟨by decide, rfl, rfl, rfl, rfl⟩

/-- C3: a secure request with two candidates whose raw connect to the first
succeeds and whose handshake fails: no attempt is started on the second
candidate, and `error_cb` is not invoked at all; the handshake handler only
cancels the timer. -/
theorem handshake_failure_is_silent :
    attempts (run (request sample_factory "example.org" 443 true)
        [Event.resolved 0 [ep1, ep2], Event.connected 0, Event.handshaken 1]).trace
        = [ep1]
      ∧ errors (run (request sample_factory "example.org" 443 true)
        [Event.resolved 0 [ep1, ep2], Event.connected 0, Event.handshaken 1]).trace
        = []
      ∧ (run (request sample_factory "example.org" 443 true)
        [Event.resolved 0 [ep1, ep2], Event.connected 0, Event.handshaken 1]).pending
        = none
      ∧ handshake_handler sample_factory ep1 1
        = ([Action.timer_cancel Timer.connect_timer], none) := by
  refine ⟨rfl, rfl, rfl, rfl⟩

/-- C4: the factory is destroyed while the handshake of an accepted secure
request is outstanding; the handshake then completes with success. The handler
runs without testing the flag: it reads `conn_timeout` and invokes
`connector_cb`. -/
theorem handshake_handler_runs_after_destroy :
    (run (request sample_factory "example.org" 0 true)
        [Event.resolved 0 [ep1], Event.connected 0, Event.destroy]).factory.dead = true
      ∧ (run (request sample_factory "example.org" 0 true)
        [Event.resolved 0 [ep1], Event.connected 0, Event.destroy,
          Event.handshaken 0]).trace
        = (run (request sample_factory "example.org" 0 true)
            [Event.resolved 0 [ep1], Event.connected 0, Event.destroy]).trace
          ++ [Action.completed Op.handshake 0,
              Action.timer_cancel Timer.connect_timer,
              Action.read Member.conn_timeout,
              Action.connector_cb ⟨SocketKind.ssl_socket, ep1, 30000⟩] := by
  refine ⟨rfl, rfl⟩

/-! ## Resolution failure -/

/-- While the resolve operation is outstanding and the factory is not destroyed,
events other than its completion leave it outstanding, invoke no callback and
start nothing; an expired timer leaves the operation cancelled. -/
theorem resolve_outstanding (tls : Bool) (pre : List Event) (s : State)
    (hp : s.pending = some (Pending.resolve tls)) (hd : s.factory.dead = false)
    (hpre : ∀ e ∈ pre, e ≠ Event.destroy ∧ ∀ ec it, e ≠ Event.resolved ec it) :
    (run s pre).pending = some (Pending.resolve tls)
      ∧ (run s pre).factory.dead = false
      ∧ errors (run s pre).trace = errors s.trace
      ∧ successes (run s pre).trace = successes s.trace
      ∧ attempts (run s pre).trace = attempts s.trace
      ∧ handshakes (run s pre).trace = handshakes s.trace
      ∧ (s.cancelled = true ∨ Event.timer_expired ∈ pre → (run s pre).cancelled = true) := by
  induction pre generalizing s with
  | nil => simp [run_nil, hp, hd]
  | cons e pre ih =>
    have he := hpre e (List.mem_cons_self _ _)
    have hrest : ∀ e2 ∈ pre, e2 ≠ Event.destroy ∧ ∀ ec it, e2 ≠ Event.resolved ec it :=
      fun e2 h2 => hpre e2 (List.mem_cons_of_mem _ h2)
    rw [run_cons]
    cases e with
    | destroy => exact absurd rfl he.1
    | resolved ec it => exact absurd rfl (he.2 ec it)
    | set_stopping b =>
      have := ih (step s (Event.set_stopping b)) (by simp [step, hp]) (by simp [step, hd]) hrest
      simpa [step] using this
    | timer_expired =>
      have := ih (step s Event.timer_expired) (by simp [step, hp]) (by simp [step, hp, hd]) hrest
      simp only [step, hp, resolve_timer_handler, errors_append, successes_append,
        attempts_append, handshakes_append] at this ⊢
      simpa [errors, successes, attempts, handshakes] using this
    | connected ec =>
      have := ih (step s (Event.connected ec)) (by simp [step, hp]) (by simp [step, hp, hd]) hrest
      simpa [step, hp] using this
    | handshaken ec =>
      have := ih (step s (Event.handshaken ec)) (by simp [step, hp]) (by simp [step, hp, hd]) hrest
      simpa [step, hp] using this

/-- C8: for a request accepted by a live factory, whatever happens before the
resolve operation completes short of destroying the factory, if the operation
completes with an error, or with an empty list, or after its timer expired (the
timer handler cancels it, so it completes with `operation_aborted`), then over
the whole run `error_cb` is invoked exactly once, with `RESOLUTION_FAILED`,
`connector_cb` is never invoked, and no connection attempt and no handshake is
started. -/
theorem resolution_failure_reported_once (f : dns_connector_factory)
    (address : String) (port : Nat) (tls : Bool) (pre post : List Event)
    (ec : error_code) (it : List Endpoint)
    (hstop : f.stopping = false) (hd : f.dead = false)
    (hpre : ∀ e ∈ pre, e ≠ Event.destroy ∧ ∀ ec2 it2, e ≠ Event.resolved ec2 it2)
    (hfail : ec ≠ 0 ∨ it = [] ∨ Event.timer_expired ∈ pre) :
    errors (run (request f address port tls)
        (pre ++ Event.resolved ec it :: post)).trace = [RESOLUTION_FAILED]
      ∧ successes (run (request f address port tls)
        (pre ++ Event.resolved ec it :: post)).trace = []
      ∧ attempts (run (request f address port tls)
        (pre ++ Event.resolved ec it :: post)).trace = []
      ∧ handshakes (run (request f address port tls)
        (pre ++ Event.resolved ec it :: post)).trace = [] := by
  have h0p : (request f address port tls).pending = some (Pending.resolve tls) := by
    simp [request, after, get_connector, hstop, dns_resolver]
  have h0d : (request f address port tls).factory.dead = false := by
    simp [request, after, hd]
  have h0t : (request f address port tls).trace
      = Action.read Member.stopping :: (dns_resolver f address port tls).1 := by
    simp [request, after, get_connector, hstop]
  obtain ⟨h1p, h1d, h1e, h1s, h1a, h1h, h1c⟩ :=
    resolve_outstanding tls pre (request f address port tls) h0p h0d hpre
  rw [h0t] at h1e h1s h1a h1h
  simp only [dns_resolver, errors, successes, attempts, handshakes] at h1e h1s h1a h1h
  rw [run_append, run_cons]
  generalize run (request f address port tls) pre = s1 at h1p h1d h1e h1s h1a h1h h1c
  have key : (step s1 (Event.resolved ec it)).pending = none
      ∧ (step s1 (Event.resolved ec it)).trace
        = s1.trace ++ [Action.completed Op.resolve (if s1.cancelled then operation_aborted else ec),
            Action.timer_cancel Timer.resolve_timer, Action.error_cb 3] := by
    by_cases hc : s1.cancelled = true
    · simp [step, h1p, hc, State.deliver, resolve_handler, h1d]
    · have hc2 : s1.cancelled = false := by simpa using hc
      have hne : Event.timer_expired ∉ pre := fun hm => hc (h1c (Or.inr hm))
      have hf : ec ≠ 0 ∨ it = [] := by
        rcases hfail with h | h | h
        · exact Or.inl h
        · exact Or.inr h
        · exact absurd h hne
      simp [step, h1p, hc2, State.deliver, resolve_handler, h1d, hf]
  obtain ⟨h2p, h2t⟩ := run_idle post _ key.1
  rw [h2t, key.2]
  simp only [errors_append, successes_append, attempts_append, handshakes_append,
    h1e, h1s, h1a, h1h]
  simp [errors, successes, attempts, handshakes, RESOLUTION_FAILED]

theorem resolution_failure_reported_once_witness :
    errors (run (request sample_factory "example.org" 0 false)
        ([Event.timer_expired] ++ Event.resolved 0 [ep1] :: [Event.connected 0])).trace
      = [RESOLUTION_FAILED] :=
  (resolution_failure_reported_once sample_factory "example.org" 0 false
    [Event.timer_expired] [Event.connected 0] 0 [ep1] rfl rfl
    (by simp) (Or.inr (Or.inr (by simp)))).1

/-! ## Walking the candidate list -/

/-- Plain path: each failed attempt makes the handler start the attempt on the
next candidate. After the attempts on the candidates `failed` have failed, the
attempt on the candidate that follows them is outstanding. -/
theorem connect_failures (failed : List Endpoint) :
    ∀ (ecs : List error_code) (s : State) (e : Endpoint) (it : List Endpoint)
      (c : Endpoint) (rest : List Endpoint),
      s.pending = some (Pending.connect e it) → s.cancelled = false →
      s.factory.dead = false → s.factory.stopping = false →
      e :: it = failed ++ c :: rest → ecs.length = failed.length →
      (∀ ec ∈ ecs, ec ≠ 0) →
      (run s (ecs.map Event.connected)).pending = some (Pending.connect c rest)
        ∧ (run s (ecs.map Event.connected)).cancelled = false
        ∧ (run s (ecs.map Event.connected)).factory = s.factory
        ∧ errors (run s (ecs.map Event.connected)).trace = errors s.trace
        ∧ successes (run s (ecs.map Event.connected)).trace = successes s.trace
        ∧ attempts (run s (ecs.map Event.connected)).trace ++ rest
            = attempts s.trace ++ it := by
  induction failed with
  | nil =>
    intro ecs s e it c rest hp hc hd hs hl hlen hne
    have : ecs = [] := List.length_eq_zero.mp hlen
    subst this
    simp only [List.nil_append, List.cons.injEq] at hl
    obtain ⟨rfl, rfl⟩ := hl
    simp [run_nil, hp, hc]
  | cons x fs ih =>
    intro ecs s e it c rest hp hc hd hs hl hlen hne
    cases ecs with
    | nil => simp at hlen
    | cons ec ecs =>
      simp only [List.cons_append, List.cons.injEq] at hl
      obtain ⟨rfl, hit⟩ := hl
      have hec : ec ≠ 0 := hne ec (List.mem_cons_self _ _)
      have hne2 : ∀ ec2 ∈ ecs, ec2 ≠ 0 := fun ec2 h2 => hne ec2 (List.mem_cons_of_mem _ h2)
      have hlen2 : ecs.length = fs.length := by simpa using hlen
      cases it with
      | nil => cases fs <;> simp at hit
      | cons e2 it2 =>
        simp only [List.map_cons, run_cons]
        have hstep : step s (Event.connected ec)
            = { s with
                pending := some (Pending.connect e2 it2)
                cancelled := false
                trace := s.trace ++ [Action.completed Op.connect ec,
                  Action.timer_cancel Timer.connect_timer,
                  Action.read Member.stopping,
                  Action.read Member.io_service,
                  Action.timer_start Timer.connect_timer s.factory.connect_timeout,
                  Action.read Member.dead,
                  Action.socket_async_connect e2] } := by
          simp [step, hp, hc, State.deliver, connect_handler, hd, hec, endpoint_connect, hs]
        have hp2 : (step s (Event.connected ec)).pending
            = some (Pending.connect e2 it2) := by rw [hstep]
        have hc2 : (step s (Event.connected ec)).cancelled = false := by rw [hstep]
        have hf2 : (step s (Event.connected ec)).factory = s.factory := by rw [hstep]
        have ht2 : (step s (Event.connected ec)).trace
            = s.trace ++ [Action.completed Op.connect ec,
                  Action.timer_cancel Timer.connect_timer,
                  Action.read Member.stopping,
                  Action.read Member.io_service,
                  Action.timer_start Timer.connect_timer s.factory.connect_timeout,
                  Action.read Member.dead,
                  Action.socket_async_connect e2] := by rw [hstep]
        have := ih ecs (step s (Event.connected ec)) e2 it2 c rest hp2 hc2
          (by rw [hf2]; exact hd) (by rw [hf2]; exact hs) hit hlen2 hne2
        rw [ht2, hf2] at this
        simp only [errors_append, successes_append, attempts_append] at this
        simpa [errors, successes, attempts] using this

/-- Secure path: the composed connect operation moves to the next candidate
after each failed attempt, without running any handler of the source. -/
theorem range_connect_failures (failed : List Endpoint) :
    ∀ (ecs : List error_code) (s : State) (c : Endpoint) (rest : List Endpoint),
      s.pending = some (Pending.range_connect (failed ++ c :: rest)) →
      ecs.length = failed.length → (∀ ec ∈ ecs, ec ≠ 0) →
      (run s (ecs.map Event.connected)).pending
          = some (Pending.range_connect (c :: rest))
        ∧ (run s (ecs.map Event.connected)).factory = s.factory
        ∧ errors (run s (ecs.map Event.connected)).trace = errors s.trace
        ∧ successes (run s (ecs.map Event.connected)).trace = successes s.trace
        ∧ handshakes (run s (ecs.map Event.connected)).trace = handshakes s.trace
        ∧ attempts (run s (ecs.map Event.connected)).trace ++ rest
            = attempts s.trace ++ (failed ++ c :: rest).tail := by
  induction failed with
  | nil =>
    intro ecs s c rest hp hlen hne
    have : ecs = [] := List.length_eq_zero.mp hlen
    subst this
    simp [run_nil, hp]
  | cons x fs ih =>
    intro ecs s c rest hp hlen hne
    cases ecs with
    | nil => simp at hlen
    | cons ec ecs =>
      have hec : ec ≠ 0 := hne ec (List.mem_cons_self _ _)
      have hne2 : ∀ ec2 ∈ ecs, ec2 ≠ 0 := fun ec2 h2 => hne ec2 (List.mem_cons_of_mem _ h2)
      have hlen2 : ecs.length = fs.length := by simpa using hlen
      obtain ⟨n, it, hn⟩ : ∃ n it, fs ++ c :: rest = n :: it := by
        cases fs with
        | nil => exact ⟨c, rest, rfl⟩
        | cons y ys => exact ⟨y, ys ++ c :: rest, rfl⟩
      simp only [List.map_cons, run_cons]
      have hstep : step s (Event.connected ec)
          = { s with
              pending := some (Pending.range_connect (fs ++ c :: rest))
              trace := s.trace ++ [Action.range_attempt n] } := by
        simp [step, hp, hn, hec]
      have hp2 : (step s (Event.connected ec)).pending
          = some (Pending.range_connect (fs ++ c :: rest)) := by rw [hstep]
      have hf2 : (step s (Event.connected ec)).factory = s.factory := by rw [hstep]
      have ht2 : (step s (Event.connected ec)).trace
          = s.trace ++ [Action.range_attempt n] := by rw [hstep]
      have := ih ecs (step s (Event.connected ec)) c rest hp2 hlen2 hne2
      rw [ht2, hf2] at this
      simp only [errors_append, successes_append, attempts_append, handshakes_append,
        hn, List.tail_cons] at this
      simpa [errors, successes, attempts, handshakes, hn] using this

/-- A plain request right after its resolve operation completed with the
non-empty list `e :: it`. -/
theorem resolved_plain (f : dns_connector_factory) (address : String) (port : Nat)
    (e : Endpoint) (it : List Endpoint)
    (hstop : f.stopping = false) (hd : f.dead = false) :
    (step (request f address port false) (Event.resolved 0 (e :: it))).pending
        = some (Pending.connect e it)
      ∧ (step (request f address port false) (Event.resolved 0 (e :: it))).cancelled = false
      ∧ (step (request f address port false) (Event.resolved 0 (e :: it))).factory = f
      ∧ errors (step (request f address port false) (Event.resolved 0 (e :: it))).trace = []
      ∧ successes (step (request f address port false) (Event.resolved 0 (e :: it))).trace = []
      ∧ attempts (step (request f address port false) (Event.resolved 0 (e :: it))).trace = [e] := by
  simp [request, after, get_connector, hstop, dns_resolver, step, State.deliver,
    resolve_handler, hd, endpoint_connect, errors, successes, attempts]

/-- A secure request right after its resolve operation completed with the
non-empty list `e :: it`. -/
theorem resolved_secure (f : dns_connector_factory) (address : String) (port : Nat)
    (e : Endpoint) (it : List Endpoint)
    (hstop : f.stopping = false) (hd : f.dead = false) :
    (step (request f address port true) (Event.resolved 0 (e :: it))).pending
        = some (Pending.range_connect (e :: it))
      ∧ (step (request f address port true) (Event.resolved 0 (e :: it))).factory = f
      ∧ errors (step (request f address port true) (Event.resolved 0 (e :: it))).trace = []
      ∧ successes (step (request f address port true) (Event.resolved 0 (e :: it))).trace = []
      ∧ handshakes (step (request f address port true) (Event.resolved 0 (e :: it))).trace = []
      ∧ attempts (step (request f address port true) (Event.resolved 0 (e :: it))).trace = [e] := by
  simp [request, after, get_connector, hstop, dns_resolver, step, State.deliver,
    resolve_handler, hd, endpoint_connect_ssl, errors, successes, attempts, handshakes]

/-- A non-empty list is some list followed by a last element. -/
theorem exists_snoc {α : Type} (l : List α) (h : l ≠ []) :
    ∃ (front : List α) (last : α), l = front ++ [last] := by
  rcases List.eq_nil_or_concat l with h0 | ⟨L, b, hb⟩
  · exact absurd h0 h
  · exact ⟨L, b, by simpa using hb⟩

/-- Plain request, every attempt fails. -/
theorem exhausted_plain (f : dns_connector_factory) (address : String) (port : Nat)
    (cs : List Endpoint) (ecs : List error_code) (post : List Event)
    (hstop : f.stopping = false) (hd : f.dead = false) (hcs : cs ≠ [])
    (hlen : ecs.length = cs.length) (hfail : ∀ ec ∈ ecs, ec ≠ 0) :
    errors (run (request f address port false)
        (Event.resolved 0 cs :: (ecs.map Event.connected ++ post))).trace = [3]
      ∧ successes (run (request f address port false)
        (Event.resolved 0 cs :: (ecs.map Event.connected ++ post))).trace = []
      ∧ attempts (run (request f address port false)
        (Event.resolved 0 cs :: (ecs.map Event.connected ++ post))).trace = cs := by
  obtain ⟨failed, c, rfl⟩ := exists_snoc cs hcs
  have hecs : ecs ≠ [] := by
    intro h0
    rw [h0] at hlen
    simp at hlen
  obtain ⟨ecs0, ecl, rfl⟩ := exists_snoc ecs hecs
  have hlen0 : ecs0.length = failed.length := by simpa using hlen
  have hecl : ecl ≠ 0 := hfail ecl (by simp)
  have hfail0 : ∀ ec ∈ ecs0, ec ≠ 0 := fun ec h => hfail ec (by simp [h])
  obtain ⟨e, it, hei⟩ : ∃ e it, failed ++ [c] = e :: it := by
    cases failed with
    | nil => exact ⟨c, [], rfl⟩
    | cons y ys => exact ⟨y, ys ++ [c], rfl⟩
  rw [hei, run_cons, List.map_append, List.append_assoc, run_append]
  obtain ⟨h1p, h1c, h1f, h1e, h1s, h1a⟩ := resolved_plain f address port e it hstop hd
  generalize step (request f address port false) (Event.resolved 0 (e :: it)) = s1
    at h1p h1c h1f h1e h1s h1a
  obtain ⟨h2p, h2c, h2f, h2e, h2s, h2a⟩ := connect_failures failed ecs0 s1 e it c [] h1p h1c
    (by rw [h1f]; exact hd) (by rw [h1f]; exact hstop) hei.symm hlen0 hfail0
  generalize run s1 (ecs0.map Event.connected) = s2 at h2p h2c h2f h2e h2s h2a
  have hd2 : s2.factory.dead = false := by rw [h2f, h1f]; exact hd
  simp only [List.map_cons, List.map_nil, List.singleton_append, run_cons]
  have hstep : (step s2 (Event.connected ecl)).pending = none
      ∧ (step s2 (Event.connected ecl)).trace
        = s2.trace ++ [Action.completed Op.connect ecl,
            Action.timer_cancel Timer.connect_timer, Action.error_cb 3] := by
    simp [step, h2p, h2c, State.deliver, connect_handler, hd2, hecl, endpoint_connect]
  obtain ⟨_, h3t⟩ := run_idle post _ hstep.1
  rw [h3t, hstep.2]
  simp only [errors_append, successes_append, attempts_append, h2e, h2s, h1e, h1s]
  simp only [List.append_nil] at h2a
  rw [h2a, h1a]
  simp [errors, successes, attempts]

/-- Secure request, every attempt fails. -/
theorem exhausted_secure (f : dns_connector_factory) (address : String) (port : Nat)
    (cs : List Endpoint) (ecs : List error_code) (post : List Event)
    (hstop : f.stopping = false) (hd : f.dead = false) (hcs : cs ≠ [])
    (hlen : ecs.length = cs.length) (hfail : ∀ ec ∈ ecs, ec ≠ 0) :
    errors (run (request f address port true)
        (Event.resolved 0 cs :: (ecs.map Event.connected ++ post))).trace = [3]
      ∧ successes (run (request f address port true)
        (Event.resolved 0 cs :: (ecs.map Event.connected ++ post))).trace = []
      ∧ attempts (run (request f address port true)
        (Event.resolved 0 cs :: (ecs.map Event.connected ++ post))).trace = cs := by
  obtain ⟨failed, c, rfl⟩ := exists_snoc cs hcs
  have hecs : ecs ≠ [] := by
    intro h0
    rw [h0] at hlen
    simp at hlen
  obtain ⟨ecs0, ecl, rfl⟩ := exists_snoc ecs hecs
  have hlen0 : ecs0.length = failed.length := by simpa using hlen
  have hecl : ecl ≠ 0 := hfail ecl (by simp)
  have hfail0 : ∀ ec ∈ ecs0, ec ≠ 0 := fun ec h => hfail ec (by simp [h])
  obtain ⟨e, it, hei⟩ : ∃ e it, failed ++ [c] = e :: it := by
    cases failed with
    | nil => exact ⟨c, [], rfl⟩
    | cons y ys => exact ⟨y, ys ++ [c], rfl⟩
  rw [run_cons, List.map_append, List.append_assoc, run_append]
  have h1 := resolved_secure f address port e it hstop hd
  rw [← hei] at h1
  obtain ⟨h1p, h1f, h1e, h1s, _, h1a⟩ := h1
  generalize step (request f address port true) (Event.resolved 0 (failed ++ [c])) = s1
    at h1p h1f h1e h1s h1a
  obtain ⟨h2p, h2f, h2e, h2s, _, h2a⟩ :=
    range_connect_failures failed ecs0 s1 c [] h1p hlen0 hfail0
  generalize run s1 (ecs0.map Event.connected) = s2 at h2p h2f h2e h2s h2a
  have hd2 : s2.factory.dead = false := by rw [h2f, h1f]; exact hd
  simp only [List.map_cons, List.map_nil, List.singleton_append, run_cons]
  have hstep : (step s2 (Event.connected ecl)).pending = none
      ∧ (step s2 (Event.connected ecl)).trace
        = s2.trace ++ [Action.completed Op.range_connect ecl, Action.error_cb 3] := by
    simp [step, h2p, State.deliver, range_connect_handler, hd2, hecl, endpoint_connect_ssl]
  obtain ⟨_, h3t⟩ := run_idle post _ hstep.1
  rw [h3t, hstep.2]
  simp only [errors_append, successes_append, attempts_append, h2e, h2s, h1e, h1s]
  simp only [List.append_nil] at h2a
  rw [h2a, h1a, hei]
  simp [errors, successes, attempts]

/-! ## Exhaustion of the candidates -/

/-- C6: a request, plain or secure, accepted by a factory that is neither
stopping nor destroyed, whose resolve yields the non-empty list `cs` and whose
attempt on every candidate fails: the attempts are made on exactly the
candidates of `cs`, in order, `error_cb` is invoked exactly once, with
`CONNECTION_EXHAUSTED`, and `connector_cb` never. Moreover both overloads of
`endpoint_connect`, entered with the end iterator, or entered with any iterator
on a stopping factory `g`, invoke `error_cb(CONNECTION_EXHAUSTED)` once, start
no operation and leave nothing outstanding. -/
theorem all_candidates_fail_exhausted (f g : dns_connector_factory)
    (address : String) (port : Nat) (tls : Bool)
    (cs it : List Endpoint) (ecs : List error_code) (post : List Event)
    (hstop : f.stopping = false) (hd : f.dead = false) (hcs : cs ≠ [])
    (hlen : ecs.length = cs.length) (hfail : ∀ ec ∈ ecs, ec ≠ 0)
    (hg : g.stopping = true) :
    (errors (run (request f address port tls)
        (Event.resolved 0 cs :: (ecs.map Event.connected ++ post))).trace
          = [CONNECTION_EXHAUSTED]
      ∧ successes (run (request f address port tls)
        (Event.resolved 0 cs :: (ecs.map Event.connected ++ post))).trace = []
      ∧ attempts (run (request f address port tls)
        (Event.resolved 0 cs :: (ecs.map Event.connected ++ post))).trace = cs)
      ∧ endpoint_connect f [] = ([Action.error_cb CONNECTION_EXHAUSTED], none)
      ∧ endpoint_connect_ssl f [] = ([Action.error_cb CONNECTION_EXHAUSTED], none)
      ∧ (errors (endpoint_connect g it).1 = [CONNECTION_EXHAUSTED]
          ∧ successes (endpoint_connect g it).1 = []
          ∧ operations (endpoint_connect g it).1 = []
          ∧ (endpoint_connect g it).2 = none)
      ∧ (errors (endpoint_connect_ssl g it).1 = [CONNECTION_EXHAUSTED]
          ∧ successes (endpoint_connect_ssl g it).1 = []
          ∧ operations (endpoint_connect_ssl g it).1 = []
          ∧ (endpoint_connect_ssl g it).2 = none) := by
  refine ⟨?_, rfl, rfl, ?_, ?_⟩
  · cases tls
    · exact exhausted_plain f address port cs ecs post hstop hd hcs hlen hfail
    · exact exhausted_secure f address port cs ecs post hstop hd hcs hlen hfail
  · cases it <;>
      simp [endpoint_connect, hg, errors, successes, operations, Action.starts_operation,
        CONNECTION_EXHAUSTED]
  · cases it <;>
      simp [endpoint_connect_ssl, hg, errors, successes, operations, Action.starts_operation,
        CONNECTION_EXHAUSTED]

theorem all_candidates_fail_exhausted_witness :
    errors (run (request sample_factory "example.org" 0 true)
        (Event.resolved 0 [ep1, ep2, ep3]
          :: ([111, 113, 125].map Event.connected ++ [Event.connected 0]))).trace
      = [CONNECTION_EXHAUSTED] :=
  (all_candidates_fail_exhausted sample_factory stopping_factory "example.org" 0 true
    [ep1, ep2, ep3] [ep1] [111, 113, 125] [Event.connected 0] rfl rfl (by simp) rfl
    (by simp) rfl).1.1

/-! ## Fallback through the candidate list -/

/-- Plain request: the attempts on `failed` fail, the attempt on `c` succeeds. -/
theorem fallback_plain (f : dns_connector_factory) (address : String) (port : Nat)
    (failed : List Endpoint) (c : Endpoint) (ecs : List error_code) (post : List Event)
    (hstop : f.stopping = false) (hd : f.dead = false)
    (hlen : ecs.length = failed.length) (hfail : ∀ ec ∈ ecs, ec ≠ 0) :
    successes (run (request f address port false)
        (fallback_script false (failed ++ [c]) ecs post)).trace
          = [⟨SocketKind.tcp_socket, c, f.conn_timeout⟩]
      ∧ errors (run (request f address port false)
        (fallback_script false (failed ++ [c]) ecs post)).trace = []
      ∧ attempts (run (request f address port false)
        (fallback_script false (failed ++ [c]) ecs post)).trace = failed ++ [c] := by
  obtain ⟨e, it, hei⟩ : ∃ e it, failed ++ [c] = e :: it := by
    cases failed with
    | nil => exact ⟨c, [], rfl⟩
    | cons y ys => exact ⟨y, ys ++ [c], rfl⟩
  unfold fallback_script
  rw [hei, run_cons, run_append]
  obtain ⟨h1p, h1c, h1f, h1e, h1s, h1a⟩ := resolved_plain f address port e it hstop hd
  generalize step (request f address port false) (Event.resolved 0 (e :: it)) = s1
    at h1p h1c h1f h1e h1s h1a
  obtain ⟨h2p, h2c, h2f, h2e, h2s, h2a⟩ := connect_failures failed ecs s1 e it c [] h1p h1c
    (by rw [h1f]; exact hd) (by rw [h1f]; exact hstop) hei.symm hlen hfail
  generalize run s1 (ecs.map Event.connected) = s2 at h2p h2c h2f h2e h2s h2a
  have hd2 : s2.factory.dead = false := by rw [h2f, h1f]; exact hd
  have hf2 : s2.factory = f := by rw [h2f, h1f]
  rw [run_cons]
  have hstep : (step s2 (Event.connected 0)).pending = none
      ∧ (step s2 (Event.connected 0)).trace
        = s2.trace ++ [Action.completed Op.connect 0,
            Action.timer_cancel Timer.connect_timer,
            Action.read Member.conn_timeout,
            Action.connector_cb ⟨SocketKind.tcp_socket, c, f.conn_timeout⟩] := by
    simp [step, h2p, h2c, State.deliver, connect_handler, hd, hf2]
  obtain ⟨_, h3t⟩ := run_idle ((if false = true then [Event.handshaken 0] else []) ++ post)
    _ hstep.1
  rw [h3t, hstep.2]
  simp only [errors_append, successes_append, attempts_append, h2e, h2s, h1e, h1s]
  simp only [List.append_nil] at h2a
  rw [h2a, h1a]
  simp [errors, successes, attempts]

/-- Secure request: the attempts on `failed` fail, the attempt on `c` succeeds
and so does the handshake. -/
theorem fallback_secure (f : dns_connector_factory) (address : String) (port : Nat)
    (failed : List Endpoint) (c : Endpoint) (ecs : List error_code) (post : List Event)
    (hstop : f.stopping = false) (hd : f.dead = false)
    (hlen : ecs.length = failed.length) (hfail : ∀ ec ∈ ecs, ec ≠ 0) :
    successes (run (request f address port true)
        (fallback_script true (failed ++ [c]) ecs post)).trace
          = [⟨SocketKind.ssl_socket, c, f.conn_timeout⟩]
      ∧ errors (run (request f address port true)
        (fallback_script true (failed ++ [c]) ecs post)).trace = []
      ∧ attempts (run (request f address port true)
        (fallback_script true (failed ++ [c]) ecs post)).trace = failed ++ [c] := by
  obtain ⟨e, it, hei⟩ : ∃ e it, failed ++ [c] = e :: it := by
    cases failed with
    | nil => exact ⟨c, [], rfl⟩
    | cons y ys => exact ⟨y, ys ++ [c], rfl⟩
  unfold fallback_script
  rw [run_cons, run_append]
  have h1 := resolved_secure f address port e it hstop hd
  rw [← hei] at h1
  obtain ⟨h1p, h1f, h1e, h1s, _, h1a⟩ := h1
  generalize step (request f address port true) (Event.resolved 0 (failed ++ [c])) = s1
    at h1p h1f h1e h1s h1a
  obtain ⟨h2p, h2f, h2e, h2s, _, h2a⟩ :=
    range_connect_failures failed ecs s1 c [] h1p hlen hfail
  generalize run s1 (ecs.map Event.connected) = s2 at h2p h2f h2e h2s h2a
  have hd2 : s2.factory.dead = false := by rw [h2f, h1f]; exact hd
  have hf2 : s2.factory = f := by rw [h2f, h1f]
  simp only [if_true, List.singleton_append, run_cons]
  have hstep : step (step s2 (Event.connected 0)) (Event.handshaken 0)
      = { s2 with
          pending := none
          cancelled := false
          trace := s2.trace ++ [Action.completed Op.range_connect 0,
            Action.async_handshake c,
            Action.completed Op.handshake 0,
            Action.timer_cancel Timer.connect_timer,
            Action.read Member.conn_timeout,
            Action.connector_cb ⟨SocketKind.ssl_socket, c, f.conn_timeout⟩] } := by
    simp [step, h2p, State.deliver, range_connect_handler, hd, hf2, handshake_handler]
  obtain ⟨_, h3t⟩ := run_idle post
    (step (step s2 (Event.connected 0)) (Event.handshaken 0)) (by rw [hstep])
  rw [h3t, hstep]
  simp only [errors_append, successes_append, attempts_append, h2e, h2s, h1e, h1s]
  simp only [List.append_nil] at h2a
  rw [h2a, h1a, hei]
  simp [errors, successes, attempts]

/-- C5, as stated, fails: a plain request with one candidate (`N = 1`) whose
attempt is started and completes with success, the factory having been destroyed
in between; neither callback is invoked. -/
theorem fallback_suppressed_by_destroy :
    attempts (run (request sample_factory "example.org" 80 false)
        [Event.resolved 0 [ep1], Event.destroy, Event.connected 0]).trace = [ep1]
      ∧ Action.completed Op.connect 0
          ∈ (run (request sample_factory "example.org" 80 false)
              [Event.resolved 0 [ep1], Event.destroy, Event.connected 0]).trace
      ∧ successes (run (request sample_factory "example.org" 80 false)
        [Event.resolved 0 [ep1], Event.destroy, Event.connected 0]).trace = []
      ∧ errors (run (request sample_factory "example.org" 80 false)
        [Event.resolved 0 [ep1], Event.destroy, Event.connected 0]).trace = [] := by
  refine ⟨rfl, by decide, rfl, rfl⟩

/-- C5, amended: for a request accepted by a factory that is neither stopping
nor destroyed while the request is in progress, if resolution produces the
`N = failed.length + 1` candidates `failed ++ [c]`, the attempts on the first
`N - 1` fail and the attempt on the last one, `c`, succeeds (and, for a secure
request, the handshake succeeds), then `connector_cb` is invoked exactly once,
with a connector on the transport connected to `c` (a tcp socket for a plain
request, an ssl stream for a secure one) carrying the factory's `conn_timeout`,
`error_cb` is never invoked, and the attempts were made on the candidates in
order. -/
theorem fallback_through_list (f : dns_connector_factory) (address : String)
    (port : Nat) (tls : Bool) (failed : List Endpoint) (c : Endpoint)
    (ecs : List error_code) (post : List Event)
    (hstop : f.stopping = false) (hd : f.dead = false)
    (hlen : ecs.length = failed.length) (hfail : ∀ ec ∈ ecs, ec ≠ 0) :
    successes (run (request f address port tls)
        (fallback_script tls (failed ++ [c]) ecs post)).trace
          = [⟨socket_kind tls, c, f.conn_timeout⟩]
      ∧ errors (run (request f address port tls)
        (fallback_script tls (failed ++ [c]) ecs post)).trace = []
      ∧ attempts (run (request f address port tls)
        (fallback_script tls (failed ++ [c]) ecs post)).trace = failed ++ [c] := by
  cases tls
  · exact fallback_plain f address port failed c ecs post hstop hd hlen hfail
  · exact fallback_secure f address port failed c ecs post hstop hd hlen hfail

theorem fallback_through_list_witness :
    successes (run (request sample_factory "example.org" 0 true)
        (fallback_script true ([ep1, ep2] ++ [ep3]) [111, 125] [Event.timer_expired])).trace
      = [⟨socket_kind true, ep3, sample_factory.conn_timeout⟩] :=
  (fallback_through_list sample_factory "example.org" 0 true [ep1, ep2] ep3 [111, 125]
    [Event.timer_expired] rfl rfl rfl (by simp)).1

/-! ## Sequential attempts of the plain trial -/

theorem check_append (tr tr2 : List Action) (ph : Phase) :
    Phase.check ph (tr ++ tr2)
      = (Phase.check ph tr).bind (fun p => Phase.check p tr2) := by
  induction tr generalizing ph with
  | nil => simp [Phase.check]
  | cons a tr ih =>
    simp only [List.cons_append, Phase.check]
    cases h : ph.next a with
    | none => simp
    | some p => simp [ih]

theorem trial_inv_start (f : dns_connector_factory) (cs : List Endpoint) :
    TrialInv cs (trial f cs) ∧ remaining (trial f cs) ≤ cs.length := by
  cases cs with
  | nil =>
    refine ⟨Or.inl ⟨rfl, ⟨[], rfl⟩, Phase.idle, rfl, by decide⟩, ?_⟩
    simp [remaining, trial, after, endpoint_connect]
  | cons e it =>
    by_cases hs : f.stopping = true
    · refine ⟨Or.inl ⟨?_, ?_, Phase.idle, ?_, by decide⟩, ?_⟩
      · simp [trial, after, endpoint_connect, hs]
      · exact ⟨e :: it, by simp [trial, after, endpoint_connect, hs, attempts]⟩
      · simp [trial, after, endpoint_connect, hs, Phase.check, Phase.next]
      · simp [remaining, trial, after, endpoint_connect, hs]
    · have hs2 : f.stopping = false := by simpa using hs
      refine ⟨Or.inr ⟨e, it, ?_, ?_, ?_⟩, ?_⟩
      · simp [trial, after, endpoint_connect, hs2]
      · simp [trial, after, endpoint_connect, hs2, attempts]
      · simp [trial, after, endpoint_connect, hs2, Phase.check, Phase.next]
      · simp [remaining, trial, after, endpoint_connect, hs2]

/-- The completion handler of an attempt keeps the invariant and consumes a
candidate, whatever the error code and the state of the factory. -/
theorem trial_inv_deliver (cs : List Endpoint) (s : State) (e : Endpoint)
    (it : List Endpoint) (ec : error_code)
    (hp : s.pending = some (Pending.connect e it))
    (ha : attempts s.trace ++ it = cs)
    (hc : Phase.check Phase.idle s.trace = some Phase.in_flight) :
    TrialInv cs (s.deliver Op.connect ec (connect_handler s.factory e it ec))
      ∧ remaining (s.deliver Op.connect ec (connect_handler s.factory e it ec)) + 1
          ≤ remaining s := by
  have hrem : remaining s = it.length + 1 := by simp [remaining, hp]
  by_cases hd : s.factory.dead = true
  · refine ⟨Or.inl ⟨?_, ?_, (if ec = 0 then Phase.succeeded else Phase.idle), ?_, ?_⟩, ?_⟩
    · simp [State.deliver, connect_handler, hd]
    · exact ⟨it, by simpa [State.deliver, connect_handler, hd, attempts_append, attempts] using ha⟩
    · simp [State.deliver, connect_handler, hd, check_append, hc, Phase.check, Phase.next]
    · split <;> decide
    · simp [remaining, hp, State.deliver, connect_handler, hd]
  · have hd2 : s.factory.dead = false := by simpa using hd
    by_cases hec : ec = 0
    · refine ⟨Or.inl ⟨?_, ?_, Phase.succeeded, ?_, by decide⟩, ?_⟩
      · simp [State.deliver, connect_handler, hd2, hec]
      · exact ⟨it, by
          simpa [State.deliver, connect_handler, hd2, hec, attempts_append, attempts] using ha⟩
      · simp [State.deliver, connect_handler, hd2, hec, check_append, hc, Phase.check,
          Phase.next]
      · simp [remaining, hp, State.deliver, connect_handler, hd2, hec]
    · cases it with
      | nil =>
        refine ⟨Or.inl ⟨?_, ?_, Phase.idle, ?_, by decide⟩, ?_⟩
        · simp [State.deliver, connect_handler, hd2, hec, endpoint_connect]
        · exact ⟨[], by
            simpa [State.deliver, connect_handler, hd2, hec, endpoint_connect,
              attempts_append, attempts] using ha⟩
        · simp [State.deliver, connect_handler, hd2, hec, endpoint_connect, check_append, hc,
            Phase.check, Phase.next]
        · simp [remaining, hp, State.deliver, connect_handler, hd2, hec, endpoint_connect]
      | cons e2 it2 =>
        by_cases hs : s.factory.stopping = true
        · refine ⟨Or.inl ⟨?_, ?_, Phase.idle, ?_, by decide⟩, ?_⟩
          · simp [State.deliver, connect_handler, hd2, hec, endpoint_connect, hs]
          · exact ⟨e2 :: it2, by
              simpa [State.deliver, connect_handler, hd2, hec, endpoint_connect, hs,
                attempts_append, attempts] using ha⟩
          · simp [State.deliver, connect_handler, hd2, hec, endpoint_connect, hs,
              check_append, hc, Phase.check, Phase.next]
          · simp [remaining, hp, State.deliver, connect_handler, hd2, hec, endpoint_connect, hs]
        · have hs2 : s.factory.stopping = false := by simpa using hs
          refine ⟨Or.inr ⟨e2, it2, ?_, ?_, ?_⟩, ?_⟩
          · simp [State.deliver, connect_handler, hd2, hec, endpoint_connect, hs2]
          · simpa [State.deliver, connect_handler, hd2, hec, endpoint_connect, hs2,
              attempts_append, attempts] using ha
          · simp [State.deliver, connect_handler, hd2, hec, endpoint_connect, hs2,
              check_append, hc, Phase.check, Phase.next]
          · simp [remaining, hp, State.deliver, connect_handler, hd2, hec, endpoint_connect, hs2]

/-- Every event keeps the invariant of a plain trial; a `connected` event
consumes a candidate when one is left. -/
theorem trial_inv_step (cs : List Endpoint) (s : State) (ev : Event)
    (h : TrialInv cs s) :
    TrialInv cs (step s ev)
      ∧ remaining (step s ev) ≤ remaining s - connect_completions [ev] := by
  rcases h with ⟨hp, ha, hc⟩ | ⟨e, it, hp, ha, hc⟩
  · have hs := step_idle s ev hp
    refine ⟨Or.inl ⟨hs.1, by rw [hs.2]; exact ha, by rw [hs.2]; exact hc⟩, ?_⟩
    simp [remaining, hs.1]
  · cases ev with
    | destroy =>
      exact ⟨Or.inr ⟨e, it, by simp [step, hp], by simpa [step] using ha,
        by simpa [step] using hc⟩, by simp [remaining, step, connect_completions]⟩
    | set_stopping b =>
      exact ⟨Or.inr ⟨e, it, by simp [step, hp], by simpa [step] using ha,
        by simpa [step] using hc⟩, by simp [remaining, step, connect_completions]⟩
    | timer_expired =>
      refine ⟨Or.inr ⟨e, it, by simp [step, hp], ?_, ?_⟩, ?_⟩
      · simpa [step, hp, connect_timer_handler, attempts_append, attempts] using ha
      · simp [step, hp, connect_timer_handler, check_append, hc, Phase.check, Phase.next]
      · simp [remaining, step, hp, connect_completions]
    | resolved ec iterator =>
      exact ⟨Or.inr ⟨e, it, by simp [step, hp], by simpa [step, hp] using ha,
        by simpa [step, hp] using hc⟩, by simp [remaining, step, hp, connect_completions]⟩
    | handshaken ec =>
      exact ⟨Or.inr ⟨e, it, by simp [step, hp], by simpa [step, hp] using ha,
        by simpa [step, hp] using hc⟩, by simp [remaining, step, hp, connect_completions]⟩
    | connected ec =>
      have hstep : step s (Event.connected ec)
          = s.deliver Op.connect (if s.cancelled then operation_aborted else ec)
              (connect_handler s.factory e it
                (if s.cancelled then operation_aborted else ec)) := by
        cases hcan : s.cancelled <;> simp [step, hp, hcan]
      rw [hstep]
      have hd := trial_inv_deliver cs s e it
        (if s.cancelled then operation_aborted else ec) hp ha hc
      refine ⟨hd.1, ?_⟩
      have := hd.2
      simp only [connect_completions]
      omega

theorem trial_inv_run (cs : List Endpoint) (evs : List Event) (s : State)
    (h : TrialInv cs s) :
    TrialInv cs (run s evs)
      ∧ remaining (run s evs) ≤ remaining s - connect_completions evs := by
  induction evs generalizing s with
  | nil => exact ⟨h, by simp [run_nil, connect_completions]⟩
  | cons ev evs ih =>
    rw [run_cons]
    have h1 := trial_inv_step cs s ev h
    have h2 := ih (step s ev) h1.1
    refine ⟨h2.1, ?_⟩
    have h3 : connect_completions (ev :: evs)
        = connect_completions [ev] + connect_completions evs := by
      cases ev <;> simp [connect_completions, Nat.add_comm]
    have := h1.2
    have := h2.2
    omega

/-- C10: for every candidate list `cs`, every state of the factory and every
script of events (connect outcomes, timer expiries, destruction, writes to
`stopping`, in any order), the plain endpoint trial

* starts its attempts on an initial segment of `cs`, in list order, so each
  position of the list is attempted at most once and there are never more than
  `cs.length` attempts;
* starts an attempt only when no attempt is in flight and none has succeeded,
  and every completion answers the attempt in flight (`Phase.check` accepts the
  trace);
* has nothing outstanding any more once `cs.length` attempts have completed. -/
theorem plain_trial_sequential (f : dns_connector_factory) (cs : List Endpoint)
    (evs : List Event) :
    attempts (run (trial f cs) evs).trace <+: cs
      ∧ (attempts (run (trial f cs) evs).trace).length ≤ cs.length
      ∧ Phase.check Phase.idle (run (trial f cs) evs).trace ≠ none
      ∧ (cs.length ≤ connect_completions evs → (run (trial f cs) evs).pending = none) := by
  have h0 := trial_inv_start f cs
  have h := trial_inv_run cs evs (trial f cs) h0.1
  have hpre : attempts (run (trial f cs) evs).trace <+: cs := by
    rcases h.1 with ⟨_, ha, _⟩ | ⟨e, it, _, ha, _⟩
    · exact ha
    · exact ⟨it, ha⟩
  refine ⟨hpre, ?_, ?_, ?_⟩
  · obtain ⟨t, ht⟩ := hpre
    have := congrArg List.length ht
    simp only [List.length_append] at this
    omega
  · rcases h.1 with ⟨_, _, ph, hc, _⟩ | ⟨e, it, _, _, hc⟩
    · rw [hc]; simp
    · rw [hc]; simp
  · intro hn
    have hr : remaining (run (trial f cs) evs) = 0 := by
      have := h.2
      have := h0.2
      omega
    rcases h.1 with ⟨hp, _, _⟩ | ⟨e, it, hp, _, _⟩
    · exact hp
    · simp [remaining, hp] at hr

theorem plain_trial_sequential_witness :
    [ep1, ep2].length
        ≤ connect_completions [Event.connected 111, Event.timer_expired, Event.connected 0]
      ∧ (run (trial sample_factory [ep1, ep2])
          [Event.connected 111, Event.timer_expired, Event.connected 0]).pending = none :=
  ⟨by decide, (plain_trial_sequential sample_factory [ep1, ep2]
    [Event.connected 111, Event.timer_expired, Event.connected 0]).2.2.2 (by decide)⟩

/-! ## Handshake failure, in general -/

/-- A secure request on a live factory whose attempts on `failed` fail, whose
attempt on `c` succeeds and whose handshake fails: no attempt is made on the
candidates `rest` after `c`, and neither callback is invoked. -/
theorem handshake_failure_stops_request (f : dns_connector_factory)
    (address : String) (port : Nat) (failed rest : List Endpoint) (c : Endpoint)
    (ecs : List error_code) (ec : error_code) (post : List Event)
    (hstop : f.stopping = false) (hd : f.dead = false)
    (hlen : ecs.length = failed.length) (hfail : ∀ ec2 ∈ ecs, ec2 ≠ 0)
    (hec : ec ≠ 0) :
    attempts (run (request f address port true)
        (Event.resolved 0 (failed ++ c :: rest)
          :: (ecs.map Event.connected
              ++ Event.connected 0 :: Event.handshaken ec :: post))).trace
        = failed ++ [c]
      ∧ errors (run (request f address port true)
        (Event.resolved 0 (failed ++ c :: rest)
          :: (ecs.map Event.connected
              ++ Event.connected 0 :: Event.handshaken ec :: post))).trace = []
      ∧ successes (run (request f address port true)
        (Event.resolved 0 (failed ++ c :: rest)
          :: (ecs.map Event.connected
              ++ Event.connected 0 :: Event.handshaken ec :: post))).trace = [] := by
  obtain ⟨e, it, hei⟩ : ∃ e it, failed ++ c :: rest = e :: it := by
    cases failed with
    | nil => exact ⟨c, rest, rfl⟩
    | cons y ys => exact ⟨y, ys ++ c :: rest, rfl⟩
  rw [run_cons, run_append]
  have h1 := resolved_secure f address port e it hstop hd
  rw [← hei] at h1
  obtain ⟨h1p, h1f, h1e, h1s, _, h1a⟩ := h1
  generalize step (request f address port true) (Event.resolved 0 (failed ++ c :: rest)) = s1
    at h1p h1f h1e h1s h1a
  obtain ⟨h2p, h2f, h2e, h2s, _, h2a⟩ :=
    range_connect_failures failed ecs s1 c rest h1p hlen hfail
  generalize run s1 (ecs.map Event.connected) = s2 at h2p h2f h2e h2s h2a
  have hf2 : s2.factory = f := by rw [h2f, h1f]
  have hatt : attempts s2.trace = failed ++ [c] := by
    have h3 : attempts s2.trace ++ rest = (failed ++ [c]) ++ rest := by
      have h4 : [e] ++ (failed ++ c :: rest).tail = failed ++ c :: rest := by
        rw [hei]
        rfl
      rw [h2a, h1a, h4]
      simp
    exact List.append_cancel_right h3
  simp only [run_cons]
  have hstep : step (step s2 (Event.connected 0)) (Event.handshaken ec)
      = { s2 with
          pending := none
          cancelled := false
          trace := s2.trace ++ [Action.completed Op.range_connect 0,
            Action.async_handshake c,
            Action.completed Op.handshake ec,
            Action.timer_cancel Timer.connect_timer] } := by
    cases rest <;>
      simp [step, h2p, State.deliver, range_connect_handler, hd, hf2, handshake_handler, hec]
  obtain ⟨_, h3t⟩ := run_idle post
    (step (step s2 (Event.connected 0)) (Event.handshaken ec)) (by rw [hstep])
  rw [h3t, hstep]
  simp only [errors_append, successes_append, attempts_append, h2e, h2s, h1e, h1s, hatt]
  simp [errors, successes, attempts]

/-! ## At most one callback -/

theorem callbacks_append (tr tr2 : List Action) :
    callbacks (tr ++ tr2) = callbacks tr + callbacks tr2 := by
  simp only [callbacks, errors_append, successes_append, List.length_append]
  omega

theorem endpoint_connect_callbacks (f : dns_connector_factory) (it : List Endpoint) :
    callbacks (endpoint_connect f it).1 ≤ 1
      ∧ ((endpoint_connect f it).2 ≠ none → callbacks (endpoint_connect f it).1 = 0) := by
  cases it with
  | nil => simp [endpoint_connect, callbacks, errors, successes]
  | cons e it =>
    cases hs : f.stopping <;> simp [endpoint_connect, callbacks, errors, successes, hs]

theorem endpoint_connect_ssl_callbacks (f : dns_connector_factory) (it : List Endpoint) :
    callbacks (endpoint_connect_ssl f it).1 ≤ 1
      ∧ ((endpoint_connect_ssl f it).2 ≠ none
          → callbacks (endpoint_connect_ssl f it).1 = 0) := by
  cases it with
  | nil => simp [endpoint_connect_ssl, callbacks, errors, successes]
  | cons e it =>
    cases hs : f.stopping <;> simp [endpoint_connect_ssl, callbacks, errors, successes, hs]

theorem connect_handler_callbacks (f : dns_connector_factory) (e : Endpoint)
    (it : List Endpoint) (ec : error_code) :
    callbacks (connect_handler f e it ec).1 ≤ 1
      ∧ ((connect_handler f e it ec).2 ≠ none
          → callbacks (connect_handler f e it ec).1 = 0) := by
  have h := endpoint_connect_callbacks f it
  unfold connect_handler
  split
  · simp [callbacks, errors, successes]
  · split
    · simpa [callbacks, errors, successes] using h
    · simp [callbacks, errors, successes]

theorem range_connect_handler_callbacks (f : dns_connector_factory) (peer : Endpoint)
    (ec : error_code) (it : List Endpoint) :
    callbacks (range_connect_handler f peer ec it).1 ≤ 1
      ∧ ((range_connect_handler f peer ec it).2 ≠ none
          → callbacks (range_connect_handler f peer ec it).1 = 0) := by
  have h := endpoint_connect_ssl_callbacks f it
  unfold range_connect_handler
  split
  · simp [callbacks, errors, successes]
  · split
    · exact h
    · simp [callbacks, errors, successes]

theorem handshake_handler_callbacks (f : dns_connector_factory) (peer : Endpoint)
    (ec : error_code) :
    callbacks (handshake_handler f peer ec).1 ≤ 1
      ∧ ((handshake_handler f peer ec).2 ≠ none
          → callbacks (handshake_handler f peer ec).1 = 0) := by
  unfold handshake_handler
  split <;> simp [callbacks, errors, successes]

theorem resolve_handler_callbacks (f : dns_connector_factory) (tls : Bool)
    (ec : error_code) (it : List Endpoint) :
    callbacks (resolve_handler f tls ec it).1 ≤ 1
      ∧ ((resolve_handler f tls ec it).2 ≠ none
          → callbacks (resolve_handler f tls ec it).1 = 0) := by
  have h1 := endpoint_connect_callbacks f it
  have h2 := endpoint_connect_ssl_callbacks f it
  unfold resolve_handler
  split
  · simp [callbacks, errors, successes]
  · split
    · simp [callbacks, errors, successes]
    · split
      · simpa [callbacks, errors, successes] using h2
      · simpa [callbacks, errors, successes] using h1

theorem deliver_callbacks (s : State) (op : Op) (ec : error_code) (r : Outcome)
    (h0 : callbacks s.trace = 0)
    (hr : callbacks r.1 ≤ 1 ∧ (r.2 ≠ none → callbacks r.1 = 0)) :
    callbacks (s.deliver op ec r).trace ≤ 1
      ∧ ((s.deliver op ec r).pending ≠ none → callbacks (s.deliver op ec r).trace = 0) := by
  have ht : callbacks (s.deliver op ec r).trace = callbacks r.1 := by
    simp only [State.deliver, callbacks_append, h0]
    simp [callbacks, errors, successes]
  rw [ht]
  exact ⟨hr.1, fun h => hr.2 (by simpa [State.deliver] using h)⟩

/-- While an operation is outstanding no callback has been invoked, and no
event ever brings the number of callbacks above one. -/
theorem step_callbacks (s : State) (ev : Event)
    (h : callbacks s.trace ≤ 1 ∧ (s.pending ≠ none → callbacks s.trace = 0)) :
    callbacks (step s ev).trace ≤ 1
      ∧ ((step s ev).pending ≠ none → callbacks (step s ev).trace = 0) := by
  cases hp : s.pending with
  | none =>
    have hs := step_idle s ev hp
    rw [hs.1, hs.2]
    exact ⟨h.1, fun hn => absurd rfl hn⟩
  | some op =>
    have h0 : callbacks s.trace = 0 := h.2 (by simp [hp])
    have hsame : callbacks s.trace ≤ 1 ∧ (s.pending ≠ none → callbacks s.trace = 0) := h
    cases ev with
    | destroy => simpa [step] using h
    | set_stopping b => simpa [step] using h
    | timer_expired =>
      have c1 : callbacks [Action.resolver_cancel] = 0 := rfl
      have c2 : callbacks [Action.socket_cancel] = 0 := rfl
      have c3 : callbacks [Action.stream_shutdown] = 0 := rfl
      cases op <;>
        simp [step, hp, callbacks_append, h0, resolve_timer_handler, connect_timer_handler,
          connect_timer_handler_ssl, c1, c2, c3]
    | resolved ec iterator =>
      cases op with
      | resolve tls =>
        simp only [step, hp]
        split
        · exact deliver_callbacks s _ _ _ h0 (resolve_handler_callbacks _ _ _ _)
        · exact deliver_callbacks s _ _ _ h0 (resolve_handler_callbacks _ _ _ _)
      | connect e it => simpa [step, hp] using hsame
      | range_connect it => simpa [step, hp] using hsame
      | handshake peer => simpa [step, hp] using hsame
    | connected ec =>
      cases op with
      | resolve tls => simpa [step, hp] using hsame
      | connect e it =>
        simp only [step, hp]
        split
        · exact deliver_callbacks s _ _ _ h0 (connect_handler_callbacks _ _ _ _)
        · exact deliver_callbacks s _ _ _ h0 (connect_handler_callbacks _ _ _ _)
      | range_connect it =>
        cases it with
        | nil => simpa [step, hp] using hsame
        | cons e it =>
          cases it with
          | nil =>
            simp only [step, hp]
            split
            · exact deliver_callbacks s _ _ _ h0 (range_connect_handler_callbacks _ _ _ _)
            · exact deliver_callbacks s _ _ _ h0 (range_connect_handler_callbacks _ _ _ _)
          | cons n it =>
            simp only [step, hp]
            split
            · exact deliver_callbacks s _ _ _ h0 (range_connect_handler_callbacks _ _ _ _)
            · have c4 : callbacks [Action.range_attempt n] = 0 := rfl
              simp [callbacks_append, h0, c4]
      | handshake peer => simpa [step, hp] using hsame
    | handshaken ec =>
      cases op with
      | resolve tls => simpa [step, hp] using hsame
      | connect e it => simpa [step, hp] using hsame
      | range_connect it => simpa [step, hp] using hsame
      | handshake peer =>
        simp only [step, hp]
        exact deliver_callbacks s _ _ _ h0 (handshake_handler_callbacks _ _ _)

/-- Over every request, every factory state and every script of events, the
two callbacks together are invoked at most once, and not at all while an
operation of the request is still outstanding. -/
theorem at_most_one_callback (f : dns_connector_factory) (address : String)
    (port : Nat) (tls : Bool) (evs : List Event) :
    callbacks (run (request f address port tls) evs).trace ≤ 1
      ∧ ((run (request f address port tls) evs).pending ≠ none
          → callbacks (run (request f address port tls) evs).trace = 0) := by
  have h0 : callbacks (request f address port tls).trace ≤ 1
      ∧ ((request f address port tls).pending ≠ none
          → callbacks (request f address port tls).trace = 0) := by
    cases hs : f.stopping <;>
      simp [request, after, get_connector, hs, dns_resolver, callbacks, errors, successes]
  generalize request f address port tls = s at h0
  induction evs generalizing s with
  | nil => exact h0
  | cons ev evs ih =>
    rw [run_cons]
    exact ih (step s ev) (step_callbacks s ev h0)

/-! ## The codes given to `error_cb` -/

theorem endpoint_connect_errors (f : dns_connector_factory) (it : List Endpoint) :
    ∀ c ∈ errors (endpoint_connect f it).1, c = 3 := by
  cases it with
  | nil => simp [endpoint_connect, errors]
  | cons e it => cases hs : f.stopping <;> simp [endpoint_connect, errors, hs]

theorem endpoint_connect_ssl_errors (f : dns_connector_factory) (it : List Endpoint) :
    ∀ c ∈ errors (endpoint_connect_ssl f it).1, c = 3 := by
  cases it with
  | nil => simp [endpoint_connect_ssl, errors]
  | cons e it => cases hs : f.stopping <;> simp [endpoint_connect_ssl, errors, hs]

theorem connect_handler_errors (f : dns_connector_factory) (e : Endpoint)
    (it : List Endpoint) (ec : error_code) :
    ∀ c ∈ errors (connect_handler f e it ec).1, c = 3 := by
  intro c hc
  unfold connect_handler at hc
  split at hc
  · simp [errors] at hc
  · split at hc
    · exact endpoint_connect_errors f it c (by simpa [errors] using hc)
    · simp [errors] at hc

theorem range_connect_handler_errors (f : dns_connector_factory) (peer : Endpoint)
    (ec : error_code) (it : List Endpoint) :
    ∀ c ∈ errors (range_connect_handler f peer ec it).1, c = 3 := by
  intro c hc
  unfold range_connect_handler at hc
  split at hc
  · simp [errors] at hc
  · split at hc
    · exact endpoint_connect_ssl_errors f it c hc
    · simp [errors] at hc

theorem handshake_handler_errors (f : dns_connector_factory) (peer : Endpoint)
    (ec : error_code) : errors (handshake_handler f peer ec).1 = [] := by
  unfold handshake_handler
  split <;> simp [errors]

theorem resolve_handler_errors (f : dns_connector_factory) (tls : Bool)
    (ec : error_code) (it : List Endpoint) :
    ∀ c ∈ errors (resolve_handler f tls ec it).1, c = 3 := by
  intro c hc
  unfold resolve_handler at hc
  split at hc
  · simp [errors] at hc
  · split at hc
    · simpa [errors] using hc
    · split at hc
      · exact endpoint_connect_ssl_errors f it c (by simpa [errors] using hc)
      · exact endpoint_connect_errors f it c (by simpa [errors] using hc)

theorem deliver_errors (s : State) (op : Op) (ec : error_code) (r : Outcome)
    (hr : ∀ c ∈ errors r.1, c = 3) :
    ∀ c ∈ errors (s.deliver op ec r).trace, c ∈ errors s.trace ∨ c = 3 := by
  intro c hc
  simp only [State.deliver, errors_append, List.mem_append] at hc
  rcases hc with h | h
  · exact Or.inl h
  · exact Or.inr (hr c (by simpa [errors] using h))

/-- No event makes a handler pass anything but `3` to `error_cb`. -/
theorem step_errors (s : State) (ev : Event) :
    ∀ c ∈ errors (step s ev).trace, c ∈ errors s.trace ∨ c = 3 := by
  intro c hc
  cases ev with
  | destroy => exact Or.inl (by simpa [step] using hc)
  | set_stopping b => exact Or.inl (by simpa [step] using hc)
  | timer_expired =>
    left
    simp only [step] at hc
    split at hc <;>
      simpa [errors_append, errors, resolve_timer_handler, connect_timer_handler,
        connect_timer_handler_ssl] using hc
  | resolved ec iterator =>
    simp only [step] at hc
    split at hc
    · split at hc
      · exact deliver_errors s _ _ _ (resolve_handler_errors _ _ _ _) c hc
      · exact deliver_errors s _ _ _ (resolve_handler_errors _ _ _ _) c hc
    · exact Or.inl hc
  | connected ec =>
    simp only [step] at hc
    split at hc
    · split at hc
      · exact deliver_errors s _ _ _ (connect_handler_errors _ _ _ _) c hc
      · exact deliver_errors s _ _ _ (connect_handler_errors _ _ _ _) c hc
    · split at hc
      · exact deliver_errors s _ _ _ (range_connect_handler_errors _ _ _ _) c hc
      · exact Or.inl (by simpa [errors_append, errors] using hc)
    · split at hc
      · exact deliver_errors s _ _ _ (range_connect_handler_errors _ _ _ _) c hc
      · exact deliver_errors s _ _ _ (range_connect_handler_errors _ _ _ _) c hc
    · exact Or.inl hc
  | handshaken ec =>
    simp only [step] at hc
    split at hc
    · exact deliver_errors s _ _ _
        (by rw [handshake_handler_errors]; simp) c hc
    · exact Or.inl hc

theorem run_errors (evs : List Event) (s : State) :
    ∀ c ∈ errors (run s evs).trace, c ∈ errors s.trace ∨ c = 3 := by
  induction evs generalizing s with
  | nil => exact fun c hc => Or.inl hc
  | cons ev evs ih =>
    intro c hc
    rw [run_cons] at hc
    rcases ih (step s ev) c hc with h | h
    · exact step_errors s ev c h
    · exact Or.inr h

/-- C9, as stated, fails: no two distinct integers can be the code delivered
for a resolution failure and the code delivered for the exhaustion of the
candidates; the code passes the same value in both cases. -/
theorem resolution_and_exhaustion_share_a_code :
    ¬ ∃ resolution_failed connection_exhausted : Int,
        resolution_failed ≠ connection_exhausted
          ∧ errors (run (request sample_factory "example.org" 0 false)
              [Event.resolved 1 []]).trace = [resolution_failed]
          ∧ errors (run (request sample_factory "example.org" 0 false)
              [Event.resolved 0 [ep1], Event.connected 111]).trace
            = [connection_exhausted] := by
  rintro ⟨a, b, hne, ha, hb⟩
  have h1 : ([3] : List Int) = [a] := ha
  have h2 : ([3] : List Int) = [b] := hb
  simp only [List.cons.injEq, and_true] at h1 h2
  exact hne (h1.symm.trans h2)

/-- C9, amended: over all requests, all factory states and all scripts of
events, every code given to `error_cb` is one of two integers: `REJECTED = 1`,
given only by a factory that was stopping when `get_connector` was called, or
`3`, given only for a request that was accepted; `3` is both
`RESOLUTION_FAILED` and `CONNECTION_EXHAUSTED`, and differs from `REJECTED`. -/
theorem error_codes_closed (f : dns_connector_factory) (address : String)
    (port : Nat) (tls : Bool) (evs : List Event) (c : Int)
    (hc : c ∈ errors (run (request f address port tls) evs).trace) :
    ((c = REJECTED ∧ f.stopping = true)
        ∨ (c = RESOLUTION_FAILED ∧ c = CONNECTION_EXHAUSTED ∧ f.stopping = false))
      ∧ REJECTED ≠ CONNECTION_EXHAUSTED
      ∧ RESOLUTION_FAILED = CONNECTION_EXHAUSTED := by
  refine ⟨?_, by decide, rfl⟩
  cases hs : f.stopping
  · right
    have h0 : errors (request f address port tls).trace = [] := by
      simp [request, after, get_connector, hs, dns_resolver, errors]
    rcases run_errors evs _ c hc with h | h
    · rw [h0] at h
      simp at h
    · exact ⟨h, h, rfl⟩
  · left
    have hr := (get_connector_rejected_trace f address port tls evs hs)
    rw [hr] at hc
    simp only [errors, List.mem_singleton] at hc
    exact ⟨hc, rfl⟩

theorem error_codes_closed_witness :
    (3 : Int) ∈ errors (run (request sample_factory "example.org" 0 true)
        [Event.resolved 0 [ep1], Event.connected 111]).trace
      ∧ RESOLUTION_FAILED = CONNECTION_EXHAUSTED :=
  ⟨by decide, (error_codes_closed sample_factory "example.org" 0 true
    [Event.resolved 0 [ep1], Event.connected 111] 3 (by decide)).2.2⟩

end network
